import Mathlib

/-!
Shallow embedding of the CLI-Pomo pomodoro core
(interval.go and repository/inMemory.go) together with proofs that check
the natural-language design document against the code.

Modelling choices:
* Go `time.Duration` and `time.Time` values are integers (nanoseconds).
* Go `int64` / `int` values are `Int`.
* The in-memory store state is the slice `intervals`, modelled as
  `List Interval` in creation order; every store operation is a pure
  function threading this state.
* A Go function that can return an error or panic (index out of range)
  yields a `GoResult`: `ok`, `err` (a returned error value) or `panic`
  (a runtime crash, which is not a returned error).
* The tick engine waits on three event sources (ticker, expiry timer,
  context cancellation).  Real time is abstracted into an explicit
  schedule `List Event` listing which of the three select cases fires,
  in order; the loop body for each case is translated from the source.
-/

namespace Pomodoro

/-- Category constants from interval.go. -/
def CategoryPomodoro : String := "Pomodoro"

/-- Category constant for a short break. -/
def CategoryShortBreak : String := "ShortBreak"

/-- Category constant for a long break. -/
def CategoryLongBreak : String := "LongBreak"

/-- State constants from interval.go (Go iota, so 0..4). -/
def StateNotStarted : Int := 0

/-- State constant: running. -/
def StateRunning : Int := 1

/-- State constant: paused. -/
def StatePaused : Int := 2

/-- State constant: done. -/
def StateDone : Int := 3

/-- State constant: cancelled. -/
def StateCancelled : Int := 4

/-- One nanosecond-counted second, as in Go time.Second. -/
def timeSecond : Int := 1000000000

/-- Go time.Minute in nanoseconds. -/
def timeMinute : Int := 60 * timeSecond

/-- The Interval struct of interval.go.  StartTime is an abstract
wall-clock timestamp. -/
structure Interval where
  ID : Int
  StartTime : Int
  PlannedDuration : Int
  ActualDuration : Int
  Category : String
  State : Int
deriving DecidableEq, Repr

/-- The zero value of the Go Interval struct: all numeric fields 0 and
empty category.  Note the zero State is 0, i.e. StateNotStarted. -/
def zeroInterval : Interval := ⟨0, 0, 0, 0, "", 0⟩

/-- The error values of interval.go, plus a wrap constructor standing
for fmt.Errorf with a percent-w verb: wrapping keeps the base error
distinguishable, but a wrapped error is not identical (Go ==) to the
bare sentinel. -/
inductive GoError where
  | noIntervals
  | intervalNotRunning
  | intervalCompleted
  | invalidState
  | invalidID
  | wrap (base : GoError) (msg : String)
deriving DecidableEq, Repr

/-- Outcome of a Go call: a returned value, a returned error value, or
a runtime panic (a crash, not a returned error). -/
inductive GoResult (α : Type) where
  | ok (a : α)
  | err (e : GoError)
  | panic (msg : String)
deriving DecidableEq, Repr

/-- True exactly when the result is a returned error value. -/
def GoResult.isErr {α : Type} : GoResult α → Bool
  | .err _ => true
  | _ => false

/-- True exactly when the result is a runtime panic. -/
def GoResult.isPanic {α : Type} : GoResult α → Bool
  | .panic _ => true
  | _ => false

/-- inMemoryRepo.Create: assigns ID = len(intervals)+1 to its own copy
of the argument, appends it, and returns the ID with a nil error. -/
def Create (r : List Interval) (i : Interval) : GoResult Int × List Interval :=
  let i2 : Interval := { i with ID := (r.length : Int) + 1 }
  (.ok i2.ID, r ++ [i2])

/-- inMemoryRepo.Update: rejects ID == 0 with ErrInvalidID, then writes
the record at slice index ID-1.  A nonzero ID outside 1..len(intervals)
makes the slice index out of range: Go panics. -/
def Update (r : List Interval) (i : Interval) : GoResult Unit × List Interval :=
  if i.ID = 0 then
    (.err (.wrap .invalidID (toString i.ID)), r)
  else if 1 ≤ i.ID ∧ i.ID ≤ (r.length : Int) then
    (.ok (), r.set (i.ID - 1).toNat i)
  else
    (.panic "index out of range", r)

/-- inMemoryRepo.ByID: rejects id == 0 with ErrInvalidID, then reads the
record at slice index id-1; a nonzero id outside 1..len(intervals)
panics (index out of range). -/
def ByID (r : List Interval) (id : Int) : GoResult Interval :=
  if id = 0 then
    .err (.wrap .invalidID (toString id))
  else if 1 ≤ id ∧ id ≤ (r.length : Int) then
    .ok (r.getD (id - 1).toNat zeroInterval)
  else
    .panic "index out of range"

/-- Loop body of inMemoryRepo.Breaks: walk the slice from the most
recent entry backwards, skip Pomodoro intervals, collect the rest, and
return as soon as the collected data reaches length n. -/
def breaksLoop (n : Int) : List Interval → List Interval → List Interval
  | [], data => data
  | i :: rest, data =>
    if i.Category = CategoryPomodoro then
      breaksLoop n rest data
    else
      let data2 := data ++ [i]
      if (data2.length : Int) = n then data2 else breaksLoop n rest data2

/-- inMemoryRepo.Breaks as written: the body calls r.RLocker() — which
merely returns a Locker value without acquiring the read lock — and
defers r.RUnlock().  The loop (breaksLoop) collects its data, but when
the deferred RUnlock runs on the RWMutex that holds no read lock the Go
runtime raises the unrecoverable crash below, so no call ever returns
the collected data.  Here .panic stands for any run-ending Go crash,
fatal runtime errors included. -/
def Breaks (r : List Interval) (n : Int) : GoResult (List Interval) :=
  let _data := breaksLoop n r.reverse []
  .panic "fatal error: sync: RUnlock of unlocked RWMutex"

/-- inMemoryRepo.Breaks as the source clearly intends: the identical
collecting body, with the read lock acquired the way ByID does it
(RLock), so the deferred RUnlock is legal and the up-to-n most recent
non-Pomodoro intervals are returned, most recent first, without error. -/
def BreaksIntended (r : List Interval) (n : Int) : GoResult (List Interval) :=
  .ok (breaksLoop n r.reverse [])

/-- Modelled from the spec: the repository package implements no Last
method even though the Repository interface of interval.go declares one
and nextCategory and GetInterVal call it.  Per the spec, last() fails
with NoIntervals when the store is empty and otherwise returns the most
recently created interval. -/
def Last (r : List Interval) : GoResult Interval :=
  match r.getLast? with
  | none => .err .noIntervals
  | some i => .ok i

/-- Method names declared by the Repository interface
(interval.go lines 38-44). -/
def repositoryMethods : List String :=
  ["Create", "Update", "ByID", "Last", "Breaks"]

/-- Method names actually defined on inMemoryRepo in
repository/inMemory.go. -/
def inMemoryRepoMethods : List String :=
  ["Create", "Update", "ByID", "Breaks"]

/-- nextCategory of interval.go, over the store state: consult Last;
ErrNoIntervals means Pomodoro; a most recent break means Pomodoro;
otherwise look at Breaks(3): fewer than three means LongBreak, any
LongBreak among them means ShortBreak, else LongBreak. -/
def nextCategory (r : List Interval) : GoResult String :=
  match Last r with
  | .err e =>
    if e = .noIntervals then .ok CategoryPomodoro else .err e
  | .panic m => .panic m
  | .ok li =>
    if li.Category = CategoryLongBreak ∨ li.Category = CategoryShortBreak then
      .ok CategoryPomodoro
    else
      match Breaks r 3 with
      | .err e => .err e
      | .panic m => .panic m
      | .ok lastBreaks =>
        if lastBreaks.length < 3 then .ok CategoryLongBreak
        else if lastBreaks.any (fun i => i.Category = CategoryLongBreak) then
          .ok CategoryShortBreak
        else .ok CategoryLongBreak

/-- nextCategory with the locking slip of Breaks repaired: the one
change from nextCategory is BreaksIntended in place of Breaks. -/
def nextCategoryIntended (r : List Interval) : GoResult String :=
  match Last r with
  | .err e =>
    if e = .noIntervals then .ok CategoryPomodoro else .err e
  | .panic m => .panic m
  | .ok li =>
    if li.Category = CategoryLongBreak ∨ li.Category = CategoryShortBreak then
      .ok CategoryPomodoro
    else
      match BreaksIntended r 3 with
      | .err e => .err e
      | .panic m => .panic m
      | .ok lastBreaks =>
        if lastBreaks.length < 3 then .ok CategoryLongBreak
        else if lastBreaks.any (fun i => i.Category = CategoryLongBreak) then
          .ok CategoryShortBreak
        else .ok CategoryLongBreak

/-- A rest category in the spec's sense: ShortRest or LongRest. -/
def isRestCategory (c : String) : Bool :=
  c = CategoryShortBreak || c = CategoryLongBreak

/-- Reference definition of the category rule, written from the spec's
three rules (claim C1): empty history means Work; a most recent rest
means Work; otherwise take the up-to-3 most recent rest intervals (most
recent first): fewer than 3 means LongRest, any LongRest among them
means ShortRest, else LongRest. -/
def nextCategoryRef (history : List Interval) : String :=
  match history.getLast? with
  | none => CategoryPomodoro
  | some li =>
    if isRestCategory li.Category then CategoryPomodoro
    else
      let rests :=
        (history.reverse.filter (fun i => isRestCategory i.Category)).take 3
      if rests.length < 3 then CategoryLongBreak
      else if rests.any (fun i => i.Category = CategoryLongBreak) then
        CategoryShortBreak
      else CategoryLongBreak

/-- A history is well-formed when every interval carries one of the
three category constants (the only values the factory ever creates). -/
def WellFormedHistory (h : List Interval) : Prop :=
  ∀ i ∈ h, i.Category = CategoryPomodoro ∨ i.Category = CategoryShortBreak ∨
    i.Category = CategoryLongBreak

/-- IntervalConfig of interval.go, minus the repo field: the store
state is threaded explicitly instead. -/
structure IntervalConfig where
  PomodoroDuration : Int
  ShortBreakDuration : Int
  LongBreakDuration : Int
deriving DecidableEq, Repr

/-- NewConfig of interval.go: start from the 25/5/15 minute defaults
and override each duration only when the argument is positive. -/
def NewConfig (pomodoro shortBreak longBreak : Int) : IntervalConfig :=
  let c : IntervalConfig :=
    ⟨25 * timeMinute, 5 * timeMinute, 15 * timeMinute⟩
  let c := if pomodoro > 0 then { c with PomodoroDuration := pomodoro } else c
  let c := if shortBreak > 0 then { c with ShortBreakDuration := shortBreak } else c
  if longBreak > 0 then { c with LongBreakDuration := longBreak } else c

/-- The three event sources of the select loop in tick: the periodic
ticker, the expiry timer, and context cancellation. -/
inductive Event where
  | tickFire
  | expire
  | cancel
deriving DecidableEq, Repr

/-- A recorded callback invocation, with the Interval snapshot it was
called with (the start, periodic and end callbacks of tick). -/
inductive Call where
  | onStart (i : Interval)
  | onTick (i : Interval)
  | onEnd (i : Interval)
deriving DecidableEq, Repr

/-- How an invocation of the tick loop came out: it returned nil,
returned an error, panicked, or is still blocked waiting for the next
event (the schedule ran out). -/
inductive RunStatus where
  | returnedOk
  | returnedErr (e : GoError)
  | panicked (msg : String)
  | pending
deriving DecidableEq, Repr

/-- Result of running the tick engine: how it ended, the final store
state, and the callback invocations in order. -/
structure TickResult where
  status : RunStatus
  store : List Interval
  calls : List Call
deriving DecidableEq, Repr

/-- Lift a Go error return into a RunStatus. -/
def GoResult.toStatus : GoResult Unit → RunStatus
  | .ok _ => .returnedOk
  | .err e => .returnedErr e
  | .panic m => .panicked m

/-- The select loop of tick in interval.go, driven by an explicit event
schedule.  Ticker case: re-read by ID; if the state has become Paused
return nil at once; otherwise add one second to ActualDuration, persist,
invoke the periodic callback and loop.  Expiry case: re-read, set
StateDone, invoke the end callback, then return the result of Update.
Cancellation case: re-read, set StateCancelled, return the result of
Update (no end callback). -/
def tickLoop : List Event → List Interval → Int → TickResult
  | [], s, _ => ⟨.pending, s, []⟩
  | .tickFire :: rest, s, id =>
    match ByID s id with
    | .err e => ⟨.returnedErr e, s, []⟩
    | .panic m => ⟨.panicked m, s, []⟩
    | .ok i =>
      if i.State = StatePaused then ⟨.returnedOk, s, []⟩
      else
        let i2 := { i with ActualDuration := i.ActualDuration + timeSecond }
        match Update s i2 with
        | (.err e, s2) => ⟨.returnedErr e, s2, []⟩
        | (.panic m, s2) => ⟨.panicked m, s2, []⟩
        | (.ok _, s2) =>
          let r := tickLoop rest s2 id
          ⟨r.status, r.store, .onTick i2 :: r.calls⟩
  | .expire :: _, s, id =>
    match ByID s id with
    | .err e => ⟨.returnedErr e, s, []⟩
    | .panic m => ⟨.panicked m, s, []⟩
    | .ok i =>
      let i2 := { i with State := StateDone }
      let u := Update s i2
      ⟨u.1.toStatus, u.2, [.onEnd i2]⟩
  | .cancel :: _, s, id =>
    match ByID s id with
    | .err e => ⟨.returnedErr e, s, []⟩
    | .panic m => ⟨.panicked m, s, []⟩
    | .ok i =>
      let i2 := { i with State := StateCancelled }
      let u := Update s i2
      ⟨u.1.toStatus, u.2, []⟩

/-- tick of interval.go: read the interval once to compute the expiry
delay (real time is abstracted into the schedule), invoke the start
callback with that snapshot, then run the select loop. -/
def tick (events : List Event) (s : List Interval) (id : Int) : TickResult :=
  match ByID s id with
  | .err e => ⟨.returnedErr e, s, []⟩
  | .panic m => ⟨.panicked m, s, []⟩
  | .ok i =>
    let r := tickLoop events s id
    ⟨r.status, r.store, .onStart i :: r.calls⟩

/-- newInterval of interval.go: pick the category via nextCategory, set
PlannedDuration from the matching config field, persist through Create
(which assigns the ID) and return the populated interval. -/
def newInterval (config : IntervalConfig) (s : List Interval) :
    GoResult Interval × List Interval :=
  match nextCategory s with
  | .err e => (.err e, s)
  | .panic m => (.panic m, s)
  | .ok category =>
    let i :=
      { zeroInterval with
        Category := category
        PlannedDuration :=
          if category = CategoryPomodoro then config.PomodoroDuration
          else if category = CategoryShortBreak then config.ShortBreakDuration
          else if category = CategoryLongBreak then config.LongBreakDuration
          else zeroInterval.PlannedDuration }
    match Create s i with
    | (.ok id, s2) => (.ok { i with ID := id }, s2)
    | (.err e, s2) => (.err e, s2)
    | (.panic m, s2) => (.panic m, s2)

/-- GetInterVal of interval.go: return the last interval when it exists
and is neither Done nor Cancelled; on ErrNoIntervals or a finished last
interval fall through to newInterval; propagate any other error. -/
def GetInterVal (config : IntervalConfig) (s : List Interval) :
    GoResult Interval × List Interval :=
  match Last s with
  | .err e =>
    if e = .noIntervals then newInterval config s else (.err e, s)
  | .panic m => (.panic m, s)
  | .ok i =>
    if i.State ≠ StateCancelled ∧ i.State ≠ StateDone then (.ok i, s)
    else newInterval config s

/-- Interval.Start of interval.go: Running is a no-op nil return;
NotStarted stamps StartTime = now and falls through to the Paused case,
which sets StateRunning, persists, and hands over to tick; Done and
Cancelled fail wrapping ErrIntervalCompleted; anything else fails
wrapping ErrInvalidState. -/
def Interval.Start (i : Interval) (now : Int) (events : List Event)
    (s : List Interval) : TickResult :=
  if i.State = StateRunning then ⟨.returnedOk, s, []⟩
  else if i.State = StateNotStarted ∨ i.State = StatePaused then
    let i1 := if i.State = StateNotStarted then { i with StartTime := now } else i
    let i2 := { i1 with State := StateRunning }
    match Update s i2 with
    | (.err e, s2) => ⟨.returnedErr e, s2, []⟩
    | (.panic m, s2) => ⟨.panicked m, s2, []⟩
    | (.ok _, s2) => tick events s2 i.ID
  else if i.State = StateCancelled ∨ i.State = StateDone then
    ⟨.returnedErr (.wrap .intervalCompleted "Cannot start"), s, []⟩
  else
    ⟨.returnedErr (.wrap .invalidState (toString i.State)), s, []⟩

/-- Interval.Pause of interval.go: only a Running interval may pause;
otherwise ErrIntervalNotRunning; on success persist with StatePaused. -/
def Interval.Pause (i : Interval) (s : List Interval) :
    GoResult Unit × List Interval :=
  if i.State ≠ StateRunning then (.err .intervalNotRunning, s)
  else Update s { i with State := StatePaused }

/-- A store mutation: the two writing operations of the repository. -/
inductive RepoOp where
  | create (i : Interval)
  | update (i : Interval)
deriving DecidableEq, Repr

/-- Apply one mutation to the store state. -/
def applyOp (s : List Interval) : RepoOp → List Interval
  | .create i => (Create s i).2
  | .update i => (Update s i).2

/-- Run a sequence of mutations from the empty store. -/
def runOps (ops : List RepoOp) : List Interval :=
  ops.foldl applyOp []

/-- Number of end-callback invocations in a call log. -/
def countOnEnd : List Call → Nat
  | [] => 0
  | .onEnd _ :: rest => countOnEnd rest + 1
  | _ :: rest => countOnEnd rest

/-- C7: for every interval whose state is Done or Cancelled, Start
fails with an error wrapping IntervalCompleted, performs no store
write, and invokes no callback. -/
theorem C7_start_completed_fails (i : Interval) (now : Int)
    (events : List Event) (s : List Interval)
    (h : i.State = StateDone ∨ i.State = StateCancelled) :
    Interval.Start i now events s =
      ⟨.returnedErr (.wrap .intervalCompleted "Cannot start"), s, []⟩ := by
  rcases h with h | h <;>
    simp [Interval.Start, h, StateDone, StateCancelled, StateRunning,
      StateNotStarted, StatePaused]

/-- Witness for C7 at a concrete Done interval. -/
theorem C7_witness :
    Interval.Start ⟨1, 0, 0, 0, "Pomodoro", StateDone⟩ 0 [] [] =
      ⟨.returnedErr (.wrap .intervalCompleted "Cannot start"), [], []⟩ :=
  C7_start_completed_fails ⟨1, 0, 0, 0, "Pomodoro", StateDone⟩ 0 [] []
    (Or.inl rfl)

/-- C9: Start on an interval whose state is Running returns success
immediately as a no-op: no store write, no tick engine, no callback. -/
theorem C9_start_running_noop (i : Interval) (now : Int)
    (events : List Event) (s : List Interval) (h : i.State = StateRunning) :
    Interval.Start i now events s = ⟨.returnedOk, s, []⟩ := by
  simp [Interval.Start, h]

/-- Witness for C9 at a concrete Running interval. -/
theorem C9_witness :
    Interval.Start ⟨1, 0, 0, 0, "Pomodoro", StateRunning⟩ 0
        [.tickFire] [⟨1, 0, 0, 0, "Pomodoro", StateRunning⟩] =
      ⟨.returnedOk, [⟨1, 0, 0, 0, "Pomodoro", StateRunning⟩], []⟩ :=
  C9_start_running_noop ⟨1, 0, 0, 0, "Pomodoro", StateRunning⟩ 0
    [.tickFire] [⟨1, 0, 0, 0, "Pomodoro", StateRunning⟩] rfl

/-- C8: Pause on a non-Running interval fails with IntervalNotRunning
and leaves the store unchanged; Pause succeeds only from Running, and
from Running with a valid id it persists the interval with its state
set to Paused. -/
theorem C8_pause_spec (i : Interval) (s : List Interval) :
    (i.State ≠ StateRunning →
      Interval.Pause i s = (.err .intervalNotRunning, s)) ∧
    ((Interval.Pause i s).1 = .ok () → i.State = StateRunning) ∧
    (i.State = StateRunning → 1 ≤ i.ID → i.ID ≤ (s.length : Int) →
      Interval.Pause i s =
        (.ok (), s.set (i.ID - 1).toNat { i with State := StatePaused })) := by
  refine ⟨fun h => by simp [Interval.Pause, h], ?_, ?_⟩
  · intro h
    by_cases hr : i.State = StateRunning
    · exact hr
    · simp [Interval.Pause, hr] at h
  · intro hr h1 h2
    have hne : ¬ i.ID = 0 := by omega
    simp [Interval.Pause, hr, Update, hne, h1, h2]

/-- Witness for C8: a NotStarted interval fails to pause, and a
Running interval with id 1 in a singleton store pauses and persists. -/
theorem C8_witness :
    Interval.Pause ⟨1, 0, 0, 0, "Pomodoro", StateNotStarted⟩ [] =
      (.err .intervalNotRunning, []) ∧
    Interval.Pause ⟨1, 0, 0, 0, "Pomodoro", StateRunning⟩
        [⟨1, 0, 0, 0, "Pomodoro", StateRunning⟩] =
      (.ok (), [⟨1, 0, 0, 0, "Pomodoro", StatePaused⟩]) := by
  constructor
  · exact (C8_pause_spec ⟨1, 0, 0, 0, "Pomodoro", StateNotStarted⟩ []).1
      (by decide)
  · have h := (C8_pause_spec ⟨1, 0, 0, 0, "Pomodoro", StateRunning⟩
      [⟨1, 0, 0, 0, "Pomodoro", StateRunning⟩]).2.2 rfl (by decide) (by decide)
    exact h.trans (by decide)

/-- C2 counterexample: the claim says update and byID with an id absent
from the store return an error value rather than crashing; on the empty
store with id 1 the code instead panics (Go index out of range), so no
error value is returned. -/
theorem C2_counterexample :
    (Update [] ⟨1, 0, 0, 0, "Pomodoro", 0⟩).1 = .panic "index out of range" ∧
    (Update [] ⟨1, 0, 0, 0, "Pomodoro", 0⟩).1.isErr = false ∧
    ByID [] 1 = .panic "index out of range" ∧
    (ByID [] 1).isErr = false := by
  refine ⟨rfl, rfl, rfl, rfl⟩

/-- C2 amended: update with a zero id fails with InvalidID leaving the
store unchanged, and byID with id zero fails with InvalidID; but update
or byID with a nonzero id that is not in the store panics (index out of
range) instead of returning an error, the store unchanged. -/
theorem C2_update_byid_errors (s : List Interval) (i : Interval) (id : Int) :
    (i.ID = 0 → Update s i = (.err (.wrap .invalidID (toString i.ID)), s)) ∧
    (i.ID ≠ 0 → ¬ (1 ≤ i.ID ∧ i.ID ≤ (s.length : Int)) →
      Update s i = (.panic "index out of range", s)) ∧
    (id = 0 → ByID s id = .err (.wrap .invalidID (toString id))) ∧
    (id ≠ 0 → ¬ (1 ≤ id ∧ id ≤ (s.length : Int)) →
      ByID s id = .panic "index out of range") := by
  refine ⟨fun h => by simp [Update, h], fun h1 h2 => by simp [Update, h1, h2],
    fun h => by simp [ByID, h], fun h1 h2 => by simp [ByID, h1, h2]⟩

/-- Witness for C2 amended, at concrete stores and ids. -/
theorem C2_witness :
    Update [] ⟨0, 0, 0, 0, "", 0⟩ = (.err (.wrap .invalidID "0"), []) ∧
    Update [] ⟨2, 0, 0, 0, "", 0⟩ = (.panic "index out of range", []) ∧
    ByID [] 0 = .err (.wrap .invalidID "0") ∧
    ByID [] 3 = .panic "index out of range" := by
  refine ⟨?_, ?_, ?_, ?_⟩
  · exact ((C2_update_byid_errors [] ⟨0, 0, 0, 0, "", 0⟩ 0).1 rfl).trans
      (by decide)
  · exact (C2_update_byid_errors [] ⟨2, 0, 0, 0, "", 0⟩ 0).2.1 (by decide)
      (by decide)
  · exact ((C2_update_byid_errors [] ⟨0, 0, 0, 0, "", 0⟩ 0).2.2.1 rfl).trans
      (by decide)
  · exact (C2_update_byid_errors [] ⟨0, 0, 0, 0, "", 0⟩ 3).2.2.2 (by decide)
      (by decide)

/-- C5: when a periodic tick re-reads the interval and finds it Paused,
the loop returns success at once: the store is unchanged (no increment,
no write) and no callback is invoked. -/
theorem C5_tick_paused (s : List Interval) (id : Int) (events : List Event)
    (i : Interval) (hby : ByID s id = .ok i) (hp : i.State = StatePaused) :
    tickLoop (.tickFire :: events) s id = ⟨.returnedOk, s, []⟩ := by
  simp [tickLoop, hby, hp]

/-- Witness for C5 at a concrete paused interval. -/
theorem C5_witness :
    tickLoop [.tickFire, .tickFire]
        [⟨1, 0, 1500000000000, 0, "Pomodoro", StatePaused⟩] 1 =
      ⟨.returnedOk, [⟨1, 0, 1500000000000, 0, "Pomodoro", StatePaused⟩], []⟩ :=
  C5_tick_paused [⟨1, 0, 1500000000000, 0, "Pomodoro", StatePaused⟩] 1
    [.tickFire] ⟨1, 0, 1500000000000, 0, "Pomodoro", StatePaused⟩
    (by decide) rfl

lemma countOnEnd_tickLoop (ev : List Event) (s : List Interval) (id : Int) :
    countOnEnd (tickLoop ev s id).calls ≤ 1 ∧
    (Event.expire ∉ ev → countOnEnd (tickLoop ev s id).calls = 0) := by
  induction ev generalizing s with
  | nil => exact ⟨by simp [tickLoop, countOnEnd], fun _ => by
      simp [tickLoop, countOnEnd]⟩
  | cons e rest ih =>
    cases e with
    | tickFire =>
      simp only [tickLoop]
      cases hby : ByID s id with
      | err e2 => exact ⟨by simp [countOnEnd], fun _ => by simp [countOnEnd]⟩
      | panic m => exact ⟨by simp [countOnEnd], fun _ => by simp [countOnEnd]⟩
      | ok i =>
        dsimp only
        by_cases hp : i.State = StatePaused
        · rw [if_pos hp]
          exact ⟨by simp [countOnEnd], fun _ => by simp [countOnEnd]⟩
        · rw [if_neg hp]
          cases hU : Update s { i with ActualDuration := i.ActualDuration + timeSecond } with
          | mk r1 s2 =>
            cases r1 with
            | ok u =>
              refine ⟨by simpa [countOnEnd] using (ih s2).1, fun hm => ?_⟩
              have hm2 : Event.expire ∉ rest := by
                intro hin
                exact hm (List.mem_cons_of_mem _ hin)
              simpa [countOnEnd] using (ih s2).2 hm2
            | err e2 =>
              exact ⟨by simp [countOnEnd], fun _ => by simp [countOnEnd]⟩
            | panic m =>
              exact ⟨by simp [countOnEnd], fun _ => by simp [countOnEnd]⟩
    | expire =>
      simp only [tickLoop]
      cases hby : ByID s id with
      | err e2 => exact ⟨by simp [countOnEnd], fun _ => by simp [countOnEnd]⟩
      | panic m => exact ⟨by simp [countOnEnd], fun _ => by simp [countOnEnd]⟩
      | ok i =>
        refine ⟨by simp [countOnEnd], fun hm => ?_⟩
        exact absurd (List.mem_cons_self _ _) hm
    | cancel =>
      simp only [tickLoop]
      cases hby : ByID s id with
      | err e2 => exact ⟨by simp [countOnEnd], fun _ => by simp [countOnEnd]⟩
      | panic m => exact ⟨by simp [countOnEnd], fun _ => by simp [countOnEnd]⟩
      | ok i => exact ⟨by simp [countOnEnd], fun _ => by simp [countOnEnd]⟩

lemma countOnEnd_tick (ev : List Event) (s : List Interval) (id : Int) :
    countOnEnd (tick ev s id).calls ≤ 1 ∧
    (Event.expire ∉ ev → countOnEnd (tick ev s id).calls = 0) := by
  simp only [tick]
  cases hby : ByID s id with
  | err e2 => exact ⟨by simp [countOnEnd], fun _ => by simp [countOnEnd]⟩
  | panic m => exact ⟨by simp [countOnEnd], fun _ => by simp [countOnEnd]⟩
  | ok i =>
    refine ⟨?_, fun hm => ?_⟩
    · simpa [countOnEnd] using (countOnEnd_tickLoop ev s id).1
    · simpa [countOnEnd] using (countOnEnd_tickLoop ev s id).2 hm

/-- C6: on a cancellation event the loop re-reads the interval, writes
it back with state Cancelled (ActualDuration untouched, so it keeps its
last persisted value), returns the result of that update, and invokes
no callback on this path; moreover the end callback fires at most once
per engine invocation, and never when no expiry event occurs. -/
theorem C6_cancel_no_onEnd (s : List Interval) (id : Int)
    (events : List Event) (i : Interval) (hby : ByID s id = .ok i) :
    tickLoop (.cancel :: events) s id =
      ⟨(Update s { i with State := StateCancelled }).1.toStatus,
       (Update s { i with State := StateCancelled }).2, []⟩ ∧
    ({ i with State := StateCancelled }).ActualDuration = i.ActualDuration ∧
    (∀ (ev : List Event) (s2 : List Interval) (id2 : Int),
      countOnEnd (tick ev s2 id2).calls ≤ 1) ∧
    (∀ (ev : List Event) (s2 : List Interval) (id2 : Int),
      Event.expire ∉ ev → countOnEnd (tick ev s2 id2).calls = 0) := by
  refine ⟨?_, rfl, fun ev s2 id2 => (countOnEnd_tick ev s2 id2).1,
    fun ev s2 id2 hm => (countOnEnd_tick ev s2 id2).2 hm⟩
  simp [tickLoop, hby]

/-- Witness for C6 at a concrete running interval: one second elapsed,
cancellation fires, the stored record becomes Cancelled with the same
ActualDuration, and no callback is invoked. -/
theorem C6_witness :
    tickLoop [.cancel]
        [⟨1, 0, 1500000000000, 1000000000, "Pomodoro", StateRunning⟩] 1 =
      ⟨.returnedOk,
       [⟨1, 0, 1500000000000, 1000000000, "Pomodoro", StateCancelled⟩], []⟩ := by
  have h := (C6_cancel_no_onEnd
    [⟨1, 0, 1500000000000, 1000000000, "Pomodoro", StateRunning⟩] 1 []
    ⟨1, 0, 1500000000000, 1000000000, "Pomodoro", StateRunning⟩ (by decide)).1
  exact h.trans (by decide)

/-- C3: on the empty store, GetInterVal creates, persists and returns a
new interval with category Pomodoro (Work), planned duration equal to
the configured work duration, actual duration zero, id 1 and state
NotStarted; and when the configured pomodoro value was left zero the
duration is the 25 minute default. -/
theorem C3_getinterval_empty (pd sb lb : Int) :
    GetInterVal (NewConfig pd sb lb) [] =
      (.ok ⟨1, 0, (NewConfig pd sb lb).PomodoroDuration, 0,
          CategoryPomodoro, StateNotStarted⟩,
       [⟨1, 0, (NewConfig pd sb lb).PomodoroDuration, 0,
          CategoryPomodoro, StateNotStarted⟩]) ∧
    (pd = 0 → (NewConfig pd sb lb).PomodoroDuration = 25 * timeMinute) := by
  constructor
  · rfl
  · intro hpd
    simp only [NewConfig, hpd]
    split_ifs <;> first | rfl | simp_all

/-- Witness for C3 with an all-zero configuration. -/
theorem C3_witness :
    GetInterVal (NewConfig 0 0 0) [] =
      (.ok ⟨1, 0, 25 * timeMinute, 0, CategoryPomodoro, StateNotStarted⟩,
       [⟨1, 0, 25 * timeMinute, 0, CategoryPomodoro, StateNotStarted⟩]) ∧
    (NewConfig 0 0 0).PomodoroDuration = 25 * timeMinute := by
  have h := C3_getinterval_empty 0 0 0
  exact ⟨h.1.trans (by decide), h.2 rfl⟩

/-- C4: the Repository interface of interval.go requires a Last method,
but inMemoryRepo implements no such method, so the in-memory repository
does not provide the operation the contract (and nextCategory and
GetInterVal) require; the spec-modelled Last does satisfy the stated
semantics: NoIntervals exactly on the empty store, otherwise the most
recently created interval. -/
theorem C4_last_not_implemented :
    "Last" ∈ repositoryMethods ∧
    "Last" ∉ inMemoryRepoMethods ∧
    Last [] = .err .noIntervals ∧
    (∀ (s : List Interval) (i : Interval), Last (s ++ [i]) = .ok i) ∧
    (∀ s : List Interval, Last s = .err .noIntervals ↔ s = []) := by
  refine ⟨by decide, by decide, rfl, ?_, ?_⟩
  · intro s i
    simp [Last]
  · intro s
    cases s with
    | nil => simp [Last]
    | cons a l =>
      simp only [Last]
      cases hL : (a :: l).getLast? with
      | none => simp at hL
      | some j => simp

/-- Invariant of the in-memory store: the record at slice position k
carries id k+1. -/
def StoreInv (s : List Interval) : Prop :=
  ∀ k, k < s.length → (s.getD k zeroInterval).ID = (k : Int) + 1

lemma storeInv_applyOp {s : List Interval} (h : StoreInv s) (op : RepoOp) :
    StoreInv (applyOp s op) := by
  cases op with
  | create i =>
    intro k hk
    simp only [applyOp, Create, List.length_append, List.length_cons,
      List.length_nil] at hk ⊢
    rcases Nat.lt_or_ge k s.length with hlt | hge
    · rw [List.getD_append _ _ _ _ hlt]
      exact h k hlt
    · have hke : k = s.length := by omega
      subst hke
      rw [List.getD_append_right _ _ _ _ (Nat.le_refl _)]
      simp
  | update i =>
    by_cases h0 : i.ID = 0
    · simpa [applyOp, Update, h0] using h
    · by_cases hr : 1 ≤ i.ID ∧ i.ID ≤ (s.length : Int)
      · intro k hk
        simp only [applyOp, Update, if_neg h0, if_pos hr, List.length_set]
          at hk ⊢
        rw [List.getD_eq_getElem _ _ (by simpa using hk), List.getElem_set]
        by_cases hke : (i.ID - 1).toNat = k
        · rw [if_pos hke]
          omega
        · rw [if_neg hke]
          rw [← List.getD_eq_getElem _ zeroInterval]
          exact h k hk
      · simpa [applyOp, Update, h0, hr] using h

lemma storeInv_foldl (ops : List RepoOp) (s : List Interval)
    (h : StoreInv s) : StoreInv (ops.foldl applyOp s) := by
  induction ops generalizing s with
  | nil => exact h
  | cons op rest ih => exact ih _ (storeInv_applyOp h op)

/-- C10: Create never returns an error and assigns id len+1, so the
n-th created interval gets id n; every store reachable from the empty
store by Create and Update keeps the record at position k carrying id
k+1; hence every persisted id is positive (never zero) and ids are
unique. -/
theorem C10_sequential_ids :
    (∀ (s : List Interval) (i : Interval),
      (Create s i).1 = .ok ((s.length : Int) + 1)) ∧
    (∀ ops : List RepoOp, ∀ k, k < (runOps ops).length →
      ((runOps ops).getD k zeroInterval).ID = (k : Int) + 1) ∧
    (∀ ops : List RepoOp, ∀ k, k < (runOps ops).length →
      0 < ((runOps ops).getD k zeroInterval).ID ∧
      ((runOps ops).getD k zeroInterval).ID ≠ 0) ∧
    (∀ ops : List RepoOp, ∀ k1 k2, k1 < (runOps ops).length →
      k2 < (runOps ops).length →
      ((runOps ops).getD k1 zeroInterval).ID =
        ((runOps ops).getD k2 zeroInterval).ID → k1 = k2) := by
  have hinv : ∀ ops : List RepoOp, StoreInv (runOps ops) := fun ops =>
    storeInv_foldl ops [] (fun k hk => absurd hk (by simp))
  refine ⟨fun s i => rfl, hinv, ?_, ?_⟩
  · intro ops k hk
    have he := hinv ops k hk
    constructor <;> omega
  · intro ops k1 k2 h1 h2 he
    have e1 := hinv ops k1 h1
    have e2 := hinv ops k2 h2
    omega

/-- Witness for C10: two creations from the empty store give ids 1 and
2, stored at positions 0 and 1. -/
theorem C10_witness :
    (Create [] zeroInterval).1 = .ok 1 ∧
    ((runOps [.create zeroInterval, .create zeroInterval]).getD 1
      zeroInterval).ID = 2 ∧
    0 < ((runOps [.create zeroInterval]).getD 0 zeroInterval).ID := by
  have h := C10_sequential_ids
  refine ⟨(h.1 [] zeroInterval).trans (by decide), ?_, ?_⟩
  · have h2 := h.2.1 [.create zeroInterval, .create zeroInterval] 1 (by decide)
    exact h2.trans (by decide)
  · exact (h.2.2.1 [.create zeroInterval] 0 (by decide)).1

lemma breaksLoop_eq (n : Int) (l : List Interval) (data : List Interval)
    (h : (data.length : Int) < n) :
    breaksLoop n l data =
      data ++ (l.filter (fun i => !(i.Category == CategoryPomodoro))).take
        (n - (data.length : Int)).toNat := by
  induction l generalizing data with
  | nil => simp [breaksLoop]
  | cons i rest ih =>
    by_cases hc : i.Category = CategoryPomodoro
    · rw [breaksLoop, if_pos hc, ih data h]
      simp [List.filter_cons, hc]
    · rw [breaksLoop, if_neg hc]
      have hb : (i.Category == CategoryPomodoro) = false := by
        simp [hc]
      by_cases hn : ((data ++ [i]).length : Int) = n
      · rw [if_pos hn]
        have h1 : (n - (data.length : Int)).toNat = 1 := by
          simp only [List.length_append, List.length_cons,
            List.length_nil] at hn
          omega
        simp [List.filter_cons, hb, h1]
      · rw [if_neg hn]
        have hlt : (((data ++ [i]).length : Nat) : Int) < n := by
          simp only [List.length_append, List.length_cons,
            List.length_nil] at hn ⊢
          omega
        rw [ih (data ++ [i]) hlt]
        have h2 : (n - (data.length : Int)).toNat =
            (n - ((data ++ [i]).length : Int)).toNat + 1 := by
          simp only [List.length_append, List.length_cons, List.length_nil]
          push_cast
          omega
        simp [List.filter_cons, hb, h2, List.take_succ_cons]

lemma filter_notPomodoro_eq_filter_rest {l : List Interval}
    (hwf : ∀ i ∈ l, i.Category = CategoryPomodoro ∨
      i.Category = CategoryShortBreak ∨ i.Category = CategoryLongBreak) :
    l.filter (fun i => !(i.Category == CategoryPomodoro)) =
      l.filter (fun i => isRestCategory i.Category) := by
  induction l with
  | nil => rfl
  | cons i rest ih =>
    have hi := hwf i (List.mem_cons_self _ _)
    have ih2 := ih (fun j hj => hwf j (List.mem_cons_of_mem _ hj))
    rcases hi with hi | hi | hi <;>
      simp [List.filter_cons, hi, isRestCategory, CategoryPomodoro,
        CategoryShortBreak, CategoryLongBreak] <;>
      simpa [isRestCategory, CategoryPomodoro, CategoryShortBreak,
        CategoryLongBreak] using ih2

/-- C1: the code crashes exactly where the claim needs Breaks.  Rules 1
and 2 hold of nextCategory as written: an empty history and a history
whose most recent interval is a break give Pomodoro.  But on every
history whose most recent interval is not a break — the branch where
rule 3 consults Breaks(3) — the RLocker slip makes the call die with
the RWMutex crash instead of returning a category; with that slip
repaired (nextCategoryIntended), the function equals the three-rule
reference on every history using the three category constants. -/
theorem C1_nextCategory_breaks_crash :
    nextCategory [] = .ok CategoryPomodoro ∧
    (∀ (h : List Interval) (li : Interval), h.getLast? = some li →
      li.Category = CategoryLongBreak ∨ li.Category = CategoryShortBreak →
      nextCategory h = .ok CategoryPomodoro) ∧
    (∀ (h : List Interval) (li : Interval), h.getLast? = some li →
      ¬ (li.Category = CategoryLongBreak ∨ li.Category = CategoryShortBreak) →
      nextCategory h =
        .panic "fatal error: sync: RUnlock of unlocked RWMutex") ∧
    nextCategory [⟨1, 0, 0, 0, "Pomodoro", 0⟩] =
      .panic "fatal error: sync: RUnlock of unlocked RWMutex" ∧
    (∀ h : List Interval, WellFormedHistory h →
      nextCategoryIntended h = .ok (nextCategoryRef h)) := by
  refine ⟨rfl, ?_, ?_, by decide, ?_⟩
  · intro h li hL hrest
    simp [nextCategory, Last, hL, hrest]
  · intro h li hL hrest
    simp [nextCategory, Last, hL, hrest, Breaks]
  · intro h hwf
    cases hL : h.getLast? with
    | none =>
      have he : h = [] := List.getLast?_eq_none_iff.mp hL
      subst he
      rfl
    | some li =>
      simp only [nextCategoryIntended, nextCategoryRef, Last, hL]
      by_cases hrest : li.Category = CategoryLongBreak ∨
          li.Category = CategoryShortBreak
      · rw [if_pos hrest]
        have hB : isRestCategory li.Category = true := by
          rcases hrest with h1 | h1 <;>
            simp [isRestCategory, h1, CategoryShortBreak, CategoryLongBreak]
        simp [hB]
      · rw [if_neg hrest]
        have hB : isRestCategory li.Category = false := by
          simp only [isRestCategory, Bool.or_eq_false_iff,
            decide_eq_false_iff_not]
          exact ⟨fun h1 => hrest (Or.inr h1), fun h1 => hrest (Or.inl h1)⟩
        simp only [BreaksIntended]
        rw [breaksLoop_eq 3 h.reverse [] (by simp)]
        rw [filter_notPomodoro_eq_filter_rest
          (fun j hj => hwf j (List.mem_reverse.mp hj))]
        simp only [hB]
        simp [hB]
        split_ifs <;> rfl

/-- Witness for C1: a one-break history gives Pomodoro; a one-Pomodoro
history dies in Breaks; the repaired code gives LongBreak on it, as the
reference does. -/
theorem C1_witness :
    nextCategory [⟨1, 0, 0, 0, "ShortBreak", 0⟩] = .ok CategoryPomodoro ∧
    nextCategory [⟨1, 0, 0, 0, "Pomodoro", 0⟩] =
      .panic "fatal error: sync: RUnlock of unlocked RWMutex" ∧
    nextCategoryIntended [⟨1, 0, 0, 0, "Pomodoro", 0⟩] =
      .ok (nextCategoryRef [⟨1, 0, 0, 0, "Pomodoro", 0⟩]) ∧
    nextCategoryRef [⟨1, 0, 0, 0, "Pomodoro", 0⟩] = CategoryLongBreak := by
  have h := C1_nextCategory_breaks_crash
  refine ⟨h.2.1 [⟨1, 0, 0, 0, "ShortBreak", 0⟩] ⟨1, 0, 0, 0, "ShortBreak", 0⟩
      (by decide) (Or.inr rfl),
    h.2.2.2.1, ?_, by decide⟩
  exact h.2.2.2.2 [⟨1, 0, 0, 0, "Pomodoro", 0⟩]
    (by intro i hi; rcases List.mem_singleton.mp hi with rfl; exact Or.inl rfl)

end Pomodoro
